import Mathlib

/-!
Verification development for the KrushiAI crop-recommendation service
(`app.py`): a shallow embedding of the label-resolution routine
(`to_crop_name`, `map_class_label`), the alphabetical fallback mapping
(`int_to_class`), the top-k ranking routine (`top_k_predictions`) and the
`/predict` HTTP handler, together with theorems about them.

Python values that can reach the resolver are modelled by the inductive
type `PyVal`; Python exceptions by `PyErr`; fallible Python code returns
`Except PyErr _`.  Probabilities are modelled as rationals (the source
compares and copies floats, it never does arithmetic whose rounding could
change a comparison), and machine floats' ordering coincides with the
ordering of the rationals they denote.
-/

/-- A Python exception kind, as far as the modelled code can raise one. -/
inductive PyErr where
  | typeError
  | indexError
  | valueError
deriving DecidableEq

/-- A Python runtime value that can reach the label-resolution code:
Python `int`, numpy integer scalars, `str`, numpy string scalars
(`np.str_`), floats, Python lists, numpy arrays of dimension ≥ 1
(`arr xs` holds the subarrays/elements along axis 0), 0-dimensional
numpy arrays (`arr0`), and any other object carrying its `str()` text. -/
inductive PyVal where
  | int (n : Int)
  | npInt (n : Int)
  | str (s : String)
  | npStr (s : String)
  | float (q : ℚ)
  | list (xs : List PyVal)
  | arr (xs : List PyVal)
  | arr0 (x : PyVal)
  | obj (text : String)

mutual
/-- Python `repr` of a value (elements of containers are shown with
`repr`, so strings keep their quotes, as in CPython).  The decimal
rendering of floats and numpy arrays is abstracted to a plausible text;
no theorem depends on the exact text of a container or float. -/
def pyRepr : PyVal → String
  | .int n => toString n
  | .npInt n => toString n
  | .str s => "'" ++ s ++ "'"
  | .npStr s => "'" ++ s ++ "'"
  | .float q => toString q
  | .list xs => "[" ++ String.intercalate ", " (pyReprList xs) ++ "]"
  | .arr xs => "array([" ++ String.intercalate ", " (pyReprList xs) ++ "])"
  | .arr0 x => "array(" ++ pyRepr x ++ ")"
  | .obj t => t

/-- `pyRepr` mapped over the elements of a container. -/
def pyReprList : List PyVal → List String
  | [] => []
  | x :: xs => pyRepr x :: pyReprList xs
end

/-- Python `str()` of a value: like `repr` except that a top-level string
is shown without quotes. -/
def pyStr : PyVal → String
  | .str s => s
  | .npStr s => s
  | v => pyRepr v

/-- Python `len()`: defined for lists and for numpy arrays of dimension
≥ 1; raises `TypeError` (`len() of unsized object`) on a 0-d array.
Values of other types never have `len` taken in the modelled code. -/
def pyLen : PyVal → Except PyErr Nat
  | .list xs => .ok xs.length
  | .arr xs => .ok xs.length
  | .arr0 _ => .error .typeError
  | _ => .error .typeError

/-- The optional label encoder, reduced to the one capability the source
uses: `str(label_encoder.inverse_transform([int(v)])[0])`.  `some s`
models a successful inverse transform yielding (the stringification of)
the original label; `none` models `inverse_transform` raising. -/
abbrev LEnc := Int → Option String

/-- Python `dict.get` on a dict built from an association list with
distinct keys: the first matching binding wins. -/
def pyDictGet [DecidableEq κ] (d : List (κ × α)) (k : κ) : Option α :=
  d.findSome? fun p => if p.1 = k then some p.2 else none

/-- Python `enumerate` starting at index `k`, with `int` (i.e. `Int`)
keys, as used by the dict comprehension building `int_to_class`. -/
def enumFrom (k : Int) : List String → List (Int × String)
  | [] => []
  | x :: xs => (k, x) :: enumFrom (k + 1) xs

/-- Insertion into a sorted list, the inner step of insertion sort. -/
def insertSorted (le : α → α → Bool) (a : α) : List α → List α
  | [] => [a]
  | b :: l => if le a b then a :: b :: l else b :: insertSorted le a l

/-- Insertion sort with a boolean comparator.  Stable: an element is
placed before an existing equal one only when the comparator accepts the
pair in that order, so earlier-inserted (later-listed) equals stay
behind. -/
def insort (le : α → α → Bool) : List α → List α
  | [] => []
  | a :: l => insertSorted le a (insort le l)

/-- Strict lexicographic comparison of two character sequences by code
point, as CPython compares `str` values. -/
def charsLt : List Char → List Char → Bool
  | [], [] => false
  | [], _ :: _ => true
  | _ :: _, [] => false
  | a :: as, b :: bs =>
    if a.toNat < b.toNat then true
    else if a.toNat = b.toNat then charsLt as bs
    else false

/-- Python `a <= b` on strings: the negation of `b < a`. -/
def pyStrLe (a b : String) : Bool :=
  !(charsLt b.data a.data)

/-- Python `sorted` on strings: ascending lexicographic order on code
points, modelled by a stable sort. -/
def pySorted (xs : List String) : List String :=
  insort pyStrLe xs

/-- `int_to_class = {i: cls for i, cls in enumerate(sorted(crop_info.keys()))}`:
the deterministic alphabetical fallback mapping, built from the known
class names. -/
def int_to_class (keys : List String) : List (Int × String) :=
  enumFrom 0 (pySorted keys)

/-- The integer branch shared by `to_crop_name` and `map_class_label`:
try the label encoder if present, fall back to the alphabetical mapping,
and as a last resort return the stringified integer
(`str(int_to_class.get(int(v), str(v)))`). -/
def resolveInt (label_encoder : Option LEnc) (itc : List (Int × String)) (n : Int) : String :=
  match label_encoder with
  | some enc =>
    match enc n with
    | some s => s
    | none => (pyDictGet itc n).getD (toString n)
  | none => (pyDictGet itc n).getD (toString n)

/-- The unwrap step of `to_crop_name`:
`if isinstance(pred_val, (np.ndarray, list)) and len(pred_val) == 1:
pred_val = pred_val[0]`.  A 0-d numpy array is an `np.ndarray` instance
but `len()` raises `TypeError` on it, so that branch raises. -/
def unwrap1 : PyVal → Except PyErr PyVal
  | .arr0 _ => .error .typeError
  | .list [x] => .ok x
  | .arr [x] => .ok x
  | v => .ok v

/-- `to_crop_name(pred_val)`: unwrap a length-1 container, then map an
integer through the encoder/fallback chain, return a string unchanged,
and stringify anything else. -/
def to_crop_name (label_encoder : Option LEnc) (itc : List (Int × String))
    (pred_val : PyVal) : Except PyErr String :=
  match unwrap1 pred_val with
  | .error e => .error e
  | .ok v =>
    match v with
    | .int n => .ok (resolveInt label_encoder itc n)
    | .npInt n => .ok (resolveInt label_encoder itc n)
    | .str s => .ok s
    | .npStr s => .ok s
    | v => .ok (pyStr v)

/-- `map_class_label(cls_val)`: the per-entry resolution used by the
top-k routine; same branches as `to_crop_name` but with no unwrap step
(and the string test textually first, which cannot matter since no value
is both string- and integer-typed). -/
def map_class_label (label_encoder : Option LEnc) (itc : List (Int × String))
    (cls_val : PyVal) : String :=
  match cls_val with
  | .str s => s
  | .npStr s => s
  | .int n => resolveInt label_encoder itc n
  | .npInt n => resolveInt label_encoder itc n
  | v => pyStr v

/-- The fixed sentinel for classes without catalog text. -/
def noInfoMsg : String := "No information available for this crop."

/-- Python `str.lower()`, character by character.  The crop names and
catalog keys are ASCII, for which `Char.toLower` agrees with Python. -/
def pyLower (s : String) : String :=
  ⟨s.data.map Char.toLower⟩

/-- `crop_info.get(label.lower(), 'No information available for this crop.')`:
the case-insensitive info lookup shared by `top_k_predictions` and the
`/predict` handler. -/
def infoFor (crop_info : List (String × String)) (label : String) : String :=
  (pyDictGet crop_info (pyLower label)).getD noInfoMsg

/-- One element of the ranked top-k result:
`{'label': ..., 'probability': ..., 'info': ...}`. -/
structure RankEntry where
  label : String
  probability : ℚ
  info : String
deriving DecidableEq

/-- The trained classifier, reduced to the three capabilities the source
uses: `predict` (already composed with the `[0]` selection the handler
applies to the returned array), the optional `predict_proba`
(`none` models `hasattr` being false; the function returns the first —
only — row of the probability matrix), and the optional `classes_`
attribute. -/
structure SkModel where
  predict : List ℚ → PyVal
  predict_proba : Option (List ℚ → List ℚ)
  classes_ : Option (List PyVal)

/-- Comparison key of the executable `argsort` model: ascending by
value, ties by original position.  This pins down one concrete output;
`np.argsort`'s default quicksort does NOT promise this tie order (it is
documented unstable, degenerating to insertion sort only for rows of at
most 16 entries).  Theorems therefore assert tie-order facts only at
small concrete inputs, where numpy's introsort is insertion sort and
coincides with this model; tie-independent facts are proved for every
index order satisfying `IsArgsortRow` instead. -/
def lexLe (ps : List ℚ) (i j : Nat) : Bool :=
  decide (ps.getD i 0 < ps.getD j 0 ∨ (ps.getD i 0 = ps.getD j 0 ∧ i ≤ j))

/-- `np.argsort(probs)`: an index permutation of `probs` sitting in
ascending value order.  One concrete, executable choice of output; see
`lexLe` for what numpy does and does not guarantee about it. -/
def argsort (ps : List ℚ) : List Nat :=
  insort (lexLe ps) (List.range ps.length)

/-- The contract `np.argsort` satisfies for every sort kind, quicksort
included: the result is a permutation of `0..n-1` along which the
values are non-decreasing.  The relative order of equal values is not
part of the contract. -/
def IsArgsortRow (ps : List ℚ) (idxs : List Nat) : Prop :=
  List.Perm idxs (List.range ps.length) ∧
  idxs.Pairwise (fun i j => ps.getD i 0 ≤ ps.getD j 0)

/-- `np.argsort(probs)[::-1][:k]`: indices of the top-k probabilities,
highest first. -/
def topIndices (ps : List ℚ) (k : Nat) : List Nat :=
  ((argsort ps).reverse).take k

/-- Python list/array indexing with a non-negative index: `IndexError`
when out of range. -/
def listGetE (xs : List α) (i : Nat) : Except PyErr α :=
  match xs.get? i with
  | some x => .ok x
  | none => .error .indexError

/-- The loop body of `top_k_predictions`: `label = map_class_label(classes[idx])`,
`p = float(probs[idx])`, `info = crop_info.get(label.lower(), ...)`,
then the result dict. -/
def mkEntry (label_encoder : Option LEnc) (itc : List (Int × String))
    (crop_info : List (String × String)) (classes : List PyVal) (probs : List ℚ)
    (idx : Nat) : Except PyErr RankEntry :=
  match listGetE classes idx with
  | .error e => .error e
  | .ok c =>
    let label := map_class_label label_encoder itc c
    match listGetE probs idx with
    | .error e => .error e
    | .ok p => .ok ⟨label, p, infoFor crop_info label⟩

/-- `top_k_predictions(features, k)`: `None` when the model lacks
`predict_proba` or `classes_`; otherwise rank the probability row of the
single input and emit the top-k entries. -/
def top_k_predictions (m : SkModel) (label_encoder : Option LEnc)
    (itc : List (Int × String)) (crop_info : List (String × String))
    (features : List ℚ) (k : Nat) : Except PyErr (Option (List RankEntry)) :=
  match m.predict_proba with
  | none => .ok none
  | some fp =>
    let proba := fp features
    match m.classes_ with
    | none => .ok none
    | some classes =>
      let probs := proba
      match (topIndices probs k).mapM (mkEntry label_encoder itc crop_info classes probs) with
      | .error e => .error e
      | .ok results => .ok (some results)

/-- A JSON value, as produced by `request.get_json`. -/
inductive Json where
  | num (q : ℚ)
  | jstr (s : String)
  | jbool (b : Bool)
  | null
  | jarr (xs : List Json)
  | jobj (fields : List (String × Json))

/-- Field access on a JSON object (`data[key]` / `key in data`). -/
def jsonGet (data : List (String × Json)) (key : String) : Option Json :=
  pyDictGet data key

/-- The `required` list of the `/predict` handler, in source order. -/
def requiredFields : List String :=
  ["nitrogen", "phosphorus", "potassium", "temperature", "humidity", "ph", "rainfall"]

/-- The validation loop `for key in required: if key not in data: ...`:
the first required field absent from the body, if any. -/
def firstMissing (data : List (String × Json)) : Option String :=
  requiredFields.find? fun key => (jsonGet data key).isNone

/-- Decimal digits to a natural number (`some 0` on the empty list; the
caller checks emptiness). -/
def digitsVal (cs : List Char) : Option Nat :=
  cs.foldl (fun acc c =>
    acc.bind fun n => if c.isDigit then some (n * 10 + (c.toNat - 48)) else none)
    (some 0)

/-- Python `float(str)` on plain decimal literals: surrounding
whitespace, an optional sign, digits with an optional fractional part.
Exponents, `inf`/`nan` and underscore separators are not modelled; no
theorem depends on them. -/
def parseFloatText (s : String) : Option ℚ :=
  let t := s.trim.toList
  let signRest : ℚ × List Char :=
    match t with
    | '-' :: r => (-1, r)
    | '+' :: r => (1, r)
    | r => (1, r)
  let sign := signRest.1
  let rest := signRest.2
  let ipart := rest.takeWhile Char.isDigit
  let rest2 := rest.dropWhile Char.isDigit
  match rest2 with
  | [] =>
    if ipart.isEmpty then none
    else (digitsVal ipart).map fun n => sign * n
  | '.' :: fpart =>
    if fpart.all Char.isDigit && !(ipart.isEmpty && fpart.isEmpty) then
      match digitsVal ipart, digitsVal fpart with
      | some a, some b => some (sign * ((a : ℚ) + (b : ℚ) / ((10 : ℚ) ^ fpart.length)))
      | _, _ => none
    else none
  | _ => none

/-- Python `float(x)` on a JSON value: numbers and booleans convert,
strings go through decimal parsing, anything else raises (modelled as
`none`, surfaced by the handler as a 500). -/
def floatOfJson : Json → Option ℚ
  | .num q => some q
  | .jbool b => some (if b then 1 else 0)
  | .jstr s => parseFloatText s
  | _ => none

/-- The feature-vector construction
`np.array([float(data['nitrogen']), ...])`: the seven required fields
cast to float in source order, first failure raising. -/
def getFeatures (data : List (String × Json)) : Option (List ℚ) :=
  requiredFields.mapM fun key => (jsonGet data key).bind floatOfJson

/-- The `str(e)` text of an exception reaching the handler's `except`.
The exact CPython message is approximated; no theorem depends on it. -/
def pyErrMsg : PyErr → String
  | .typeError => "len() of unsized object"
  | .indexError => "index out of range"
  | .valueError => "could not convert string to float"

/-- Python truthiness of the handler's `if top3:` guard: `None` and the
empty list are falsy, so `top_3` is attached only for a non-empty
list. -/
def attachTop3 : Option (List RankEntry) → Option (List RankEntry)
  | some (e :: es) => some (e :: es)
  | _ => none

/-- An HTTP response of the `/predict` handler: 200 with the prediction,
its info text and the optional `top_3` field; 400; or 500. -/
inductive Resp where
  | ok (prediction : String) (info : String) (top_3 : Option (List RankEntry))
  | badRequest (error : String)
  | serverError (error : String)
deriving DecidableEq

/-- The `/predict` handler: reject non-object bodies, reject on the
first missing required field, cast the features, predict, resolve the
label, look up its info, rank the top 3, and attach `top_3` only when
truthy.  Any exception inside the `try` block becomes a 500. -/
def predict (m : SkModel) (label_encoder : Option LEnc) (itc : List (Int × String))
    (crop_info : List (String × String)) (body : Option Json) : Resp :=
  match body with
  | some (.jobj data) =>
    match firstMissing data with
    | some key => .badRequest ("Missing field: " ++ key)
    | none =>
      match getFeatures data with
      | none => .serverError (pyErrMsg .valueError)
      | some features =>
        match to_crop_name label_encoder itc (m.predict features) with
        | .error e => .serverError (pyErrMsg e)
        | .ok label_str =>
          match top_k_predictions m label_encoder itc crop_info features 3 with
          | .error e => .serverError (pyErrMsg e)
          | .ok top3 => .ok label_str (infoFor crop_info label_str) (attachTop3 top3)
  | _ => .badRequest "Invalid JSON body"

/-- Whether a value is one of the container types (`list`, any
`np.ndarray`) that the unwrap step of `to_crop_name` inspects; scalars
and arbitrary other objects are not. -/
def isContainer : PyVal → Bool
  | .list _ => true
  | .arr _ => true
  | .arr0 _ => true
  | _ => false

/-- The entry `top_k_predictions` emits for an in-range index: the total
counterpart of `mkEntry`, used to state what the ranked output is. -/
def entryFor (label_encoder : Option LEnc) (itc : List (Int × String))
    (crop_info : List (String × String)) (classes : List PyVal) (probs : List ℚ)
    (idx : Nat) : RankEntry :=
  let label := map_class_label label_encoder itc (classes.getD idx (.int 0))
  ⟨label, probs.getD idx 0, infoFor crop_info label⟩

/-- A classifier fixture with two classes of equal probability 1/2, in
internal order `["apple", "banana"]`. -/
def tieModel : SkModel :=
  ⟨fun _ => .int 0, some fun _ => [mkRat 1 2, mkRat 1 2],
   some [.npStr "apple", .npStr "banana"]⟩

/-- The classifier fixture of the spec's ranking example: probabilities
`[0.1, 0.7, 0.2]` over classes `["rice", "maize", "jute"]`. -/
def exampleModel : SkModel :=
  ⟨fun _ => .int 0, some fun _ => [mkRat 1 10, mkRat 7 10, mkRat 2 10],
   some [.npStr "rice", .npStr "maize", .npStr "jute"]⟩

/-- A classifier fixture without `predict_proba`. -/
def noProbaModel : SkModel :=
  ⟨fun _ => .npStr "rice", none, some [.npStr "rice"]⟩

/-- A request body carrying all seven required fields. -/
def fullBody : List (String × Json) :=
  [("nitrogen", .num 50), ("phosphorus", .num 50), ("potassium", .num 50),
   ("temperature", .num 20), ("humidity", .num 80), ("ph", .num 7),
   ("rainfall", .num 100)]

/-! ## Helper lemmas -/

theorem perm_insertSorted (le : α → α → Bool) (a : α) :
    ∀ l : List α, List.Perm (insertSorted le a l) (a :: l)
  | [] => List.Perm.refl _
  | b :: l => by
    unfold insertSorted
    split
    · exact List.Perm.refl _
    · exact ((perm_insertSorted le a l).cons b).trans (List.Perm.swap a b l)

theorem perm_insort (le : α → α → Bool) :
    ∀ l : List α, List.Perm (insort le l) l
  | [] => List.Perm.refl _
  | a :: l => (perm_insertSorted le a (insort le l)).trans ((perm_insort le l).cons a)

theorem pairwise_insertSorted (le : α → α → Bool)
    (htot : ∀ a b, le a b = false → le b a = true)
    (htrans : ∀ a b c, le a b = true → le b c = true → le a c = true)
    (a : α) : ∀ l : List α, l.Pairwise (fun x y => le x y = true) →
      (insertSorted le a l).Pairwise (fun x y => le x y = true)
  | [], _ => by simp [insertSorted]
  | b :: l, hl => by
    rw [List.pairwise_cons] at hl
    obtain ⟨hb, hl⟩ := hl
    unfold insertSorted
    split
    case isTrue h =>
      rw [List.pairwise_cons]
      refine ⟨?_, List.pairwise_cons.mpr ⟨hb, hl⟩⟩
      intro x hx
      rcases List.mem_cons.mp hx with rfl | hx
      · exact h
      · exact htrans a b x h (hb x hx)
    case isFalse h =>
      have hba : le b a = true := htot a b (by simpa using h)
      rw [List.pairwise_cons]
      refine ⟨?_, pairwise_insertSorted le htot htrans a l hl⟩
      intro x hx
      have hx' := (perm_insertSorted le a l).mem_iff.mp hx
      rcases List.mem_cons.mp hx' with rfl | hx'
      · exact hba
      · exact hb x hx'

theorem pairwise_insort (le : α → α → Bool)
    (htot : ∀ a b, le a b = false → le b a = true)
    (htrans : ∀ a b c, le a b = true → le b c = true → le a c = true) :
    ∀ l : List α, (insort le l).Pairwise (fun x y => le x y = true)
  | [] => List.Pairwise.nil
  | a :: l =>
    pairwise_insertSorted le htot htrans a _ (pairwise_insort le htot htrans l)

theorem lexLe_total (ps : List ℚ) :
    ∀ i j, lexLe ps i j = false → lexLe ps j i = true := by
  intro i j h
  simp only [lexLe, decide_eq_false_iff_not] at h
  simp only [lexLe, decide_eq_true_eq]
  push_neg at h
  obtain ⟨h1, h2⟩ := h
  rcases lt_trichotomy (ps.getD j 0) (ps.getD i 0) with hlt | heq | hgt
  · exact Or.inl hlt
  · exact Or.inr ⟨heq, Nat.le_of_lt (h2 heq.symm)⟩
  · exact absurd hgt (not_lt.mpr h1)

theorem lexLe_trans (ps : List ℚ) :
    ∀ i j k, lexLe ps i j = true → lexLe ps j k = true → lexLe ps i k = true := by
  intro i j k h1 h2
  simp only [lexLe, decide_eq_true_eq] at h1 h2 ⊢
  rcases h1 with h1 | ⟨he1, hi1⟩ <;> rcases h2 with h2 | ⟨he2, hi2⟩
  · exact Or.inl (h1.trans h2)
  · exact Or.inl (lt_of_lt_of_eq h1 he2)
  · exact Or.inl (lt_of_eq_of_lt he1 h2)
  · exact Or.inr ⟨he1.trans he2, hi1.trans hi2⟩

theorem argsort_perm (ps : List ℚ) :
    List.Perm (argsort ps) (List.range ps.length) :=
  perm_insort _ _

theorem argsort_length (ps : List ℚ) : (argsort ps).length = ps.length := by
  simpa using (argsort_perm ps).length_eq

theorem argsort_mem (ps : List ℚ) {i : Nat} (h : i ∈ argsort ps) :
    i < ps.length := by
  simpa [List.mem_range] using (argsort_perm ps).mem_iff.mp h

theorem argsort_sorted (ps : List ℚ) :
    (argsort ps).Pairwise (fun i j => lexLe ps i j = true) :=
  pairwise_insort _ (lexLe_total ps) (lexLe_trans ps) _

theorem argsort_isArgsortRow (ps : List ℚ) : IsArgsortRow ps (argsort ps) := by
  refine ⟨argsort_perm ps, ?_⟩
  refine (argsort_sorted ps).imp ?_
  intro a b h
  simp only [lexLe, decide_eq_true_eq] at h
  rcases h with h | ⟨he, _⟩
  · exact le_of_lt h
  · exact le_of_eq he

theorem topIndices_mem (ps : List ℚ) (k : Nat) {i : Nat}
    (h : i ∈ topIndices ps k) : i < ps.length := by
  have h2 : i ∈ (argsort ps).reverse := (List.take_sublist _ _).subset h
  exact argsort_mem ps (List.mem_reverse.mp h2)

theorem listGetE_eq_ok (d : α) {xs : List α} {i : Nat} (h : i < xs.length) :
    listGetE xs i = .ok (xs.getD i d) := by
  cases hg : xs.get? i with
  | none => exact absurd (List.get?_eq_none.mp hg) (Nat.not_le.mpr h)
  | some x =>
    have hg2 : xs[i]? = some x := by simpa using hg
    simp [listGetE, hg, hg2, List.getD_eq_getElem?_getD]

theorem mapM_ok_of_forall {ε α β : Type} {f : α → Except ε β} {g : α → β} :
    ∀ {l : List α}, (∀ a ∈ l, f a = .ok (g a)) → l.mapM f = .ok (l.map g)
  | [], _ => rfl
  | a :: l, h => by
    have ha := h a (List.mem_cons_self a l)
    have hl := mapM_ok_of_forall fun b hb => h b (List.mem_cons_of_mem a hb)
    simp only [List.mapM_cons, ha, hl, List.map_cons]
    rfl

theorem exists_of_mapM_ok {ε α β : Type} {f : α → Except ε β} :
    ∀ {l : List α} {bs : List β}, l.mapM f = .ok bs →
      ∀ b ∈ bs, ∃ a ∈ l, f a = .ok b
  | [], bs, h => by
    intro b hb
    simp only [List.mapM_nil] at h
    cases h
    cases hb
  | a :: l, bs, h => by
    intro b hb
    rw [List.mapM_cons] at h
    cases hfa : f a with
    | error e =>
      rw [hfa] at h
      exact absurd h (by simp [Bind.bind, Except.bind])
    | ok b0 =>
      rw [hfa] at h
      cases hml : l.mapM f with
      | error e =>
        rw [hml] at h
        exact absurd h (by simp [Bind.bind, Except.bind])
      | ok bs0 =>
        rw [hml] at h
        have : bs = b0 :: bs0 := by
          simpa [Bind.bind, Except.bind, Pure.pure, Except.pure] using h.symm
        subst this
        rcases List.mem_cons.mp hb with rfl | hb0
        · exact ⟨a, List.mem_cons_self a l, hfa⟩
        · obtain ⟨a', ha', hfa'⟩ := exists_of_mapM_ok hml b hb0
          exact ⟨a', List.mem_cons_of_mem a ha', hfa'⟩

theorem mkEntry_eq_entryFor (label_encoder : Option LEnc) (itc : List (Int × String))
    (crop_info : List (String × String)) (classes : List PyVal) (ps : List ℚ)
    (idx : Nat) (h1 : idx < classes.length) (h2 : idx < ps.length) :
    mkEntry label_encoder itc crop_info classes ps idx =
      .ok (entryFor label_encoder itc crop_info classes ps idx) := by
  unfold mkEntry entryFor
  rw [listGetE_eq_ok (PyVal.int 0) h1, listGetE_eq_ok (0 : ℚ) h2]

theorem mkEntry_info {label_encoder itc crop_info classes ps idx e}
    (h : mkEntry label_encoder itc crop_info classes ps idx = .ok e) :
    e.info = infoFor crop_info e.label := by
  unfold mkEntry at h
  cases hc : listGetE classes idx with
  | error e0 => rw [hc] at h; cases h
  | ok c =>
    rw [hc] at h
    cases hp : listGetE ps idx with
    | error e0 => rw [hp] at h; cases h
    | ok p =>
      rw [hp] at h
      cases h
      rfl

theorem top_k_none_iff (m : SkModel) (label_encoder : Option LEnc)
    (itc : List (Int × String)) (crop_info : List (String × String))
    (features : List ℚ) (k : Nat) :
    top_k_predictions m label_encoder itc crop_info features k = .ok none ↔
      m.predict_proba = none ∨ m.classes_ = none := by
  obtain ⟨pred, pp, cls⟩ := m
  cases pp with
  | none => simp [top_k_predictions]
  | some fp =>
    cases cls with
    | none => simp [top_k_predictions]
    | some classes =>
      simp only [top_k_predictions]
      cases hm : (topIndices (fp features) k).mapM
          (mkEntry label_encoder itc crop_info classes (fp features)) with
      | error e => simp
      | ok results => simp

theorem dictGet_enumFrom_of_lt (xs : List String) :
    ∀ (k : Int) (j : Nat), j < xs.length →
      pyDictGet (enumFrom k xs) (k + j) = xs.get? j := by
  induction xs with
  | nil => intro k j hj; cases hj
  | cons x xs ih =>
    intro k j hj
    cases j with
    | zero => simp [enumFrom, pyDictGet]
    | succ j =>
      have hne : ¬(k = k + (j + 1 : Nat)) := by omega
      have := ih (k + 1) j (by simpa using Nat.lt_of_succ_lt_succ hj)
      simp only [enumFrom, pyDictGet, List.findSome?_cons, hne, if_false]
      simpa [pyDictGet, show k + 1 + (j : Int) = k + ((j : Nat) + 1 : Nat) by push_cast; ring]
        using this

theorem dictGet_enumFrom_none (xs : List String) :
    ∀ (k i : Int), (i < k ∨ k + xs.length ≤ i) →
      pyDictGet (enumFrom k xs) i = none := by
  induction xs with
  | nil => intro k i _; rfl
  | cons x xs ih =>
    intro k i h
    have hne : ¬(k = i) := by
      rcases h with h | h
      · omega
      · have : (0 : Int) ≤ xs.length := by positivity
        simp only [List.length_cons] at h
        push_cast at h
        omega
    have : pyDictGet (enumFrom (k + 1) xs) i = none := by
      apply ih
      rcases h with h | h
      · left; omega
      · right
        simp only [List.length_cons] at h
        push_cast at h ⊢
        omega
    simpa [enumFrom, pyDictGet, hne] using this

theorem unwrap1_always_ok (v : PyVal) (h : ∀ x, v ≠ .arr0 x) :
    ∃ w, unwrap1 v = .ok w := by
  cases v with
  | arr0 x => exact absurd rfl (h x)
  | list xs =>
    match xs with
    | [] => exact ⟨_, rfl⟩
    | [x] => exact ⟨x, rfl⟩
    | x :: y :: l => exact ⟨_, rfl⟩
  | arr xs =>
    match xs with
    | [] => exact ⟨_, rfl⟩
    | [x] => exact ⟨x, rfl⟩
    | x :: y :: l => exact ⟨_, rfl⟩
  | int n => exact ⟨_, rfl⟩
  | npInt n => exact ⟨_, rfl⟩
  | str s => exact ⟨_, rfl⟩
  | npStr s => exact ⟨_, rfl⟩
  | float q => exact ⟨_, rfl⟩
  | obj t => exact ⟨_, rfl⟩

theorem to_crop_name_ok_of_unwrap (label_encoder : Option LEnc)
    (itc : List (Int × String)) {v w : PyVal} (h : unwrap1 v = .ok w) :
    ∃ s, to_crop_name label_encoder itc v = .ok s := by
  cases w <;> simp [to_crop_name, h]

/-! ## Claim theorems -/

/-- Claim C1, counterexample: on a 0-dimensional numpy array such as
`np.array(5)`, `to_crop_name` raises a `TypeError` instead of returning
a string — the unwrap step evaluates `len(pred_val)` on any
`np.ndarray` instance, and `len()` of a 0-d array raises `len() of
unsized object`.  So the claim that the operation never raises for a
numpy array of any shape is false. -/
theorem to_crop_name_raises_on_unsized :
    to_crop_name none [] (.arr0 (.npInt 5)) = .error .typeError := rfl

/-- Claim C1, amended: `to_crop_name` terminates and returns a string
for every input value except 0-dimensional numpy arrays; it returns a
string if and only if the input is not a 0-d array (on which it raises
`TypeError`).  The fallback chain degrades to the string representation
of the raw value. -/
theorem to_crop_name_total_unless_unsized (label_encoder : Option LEnc)
    (itc : List (Int × String)) (v : PyVal) :
    (∃ s, to_crop_name label_encoder itc v = .ok s) ↔ ∀ x, v ≠ .arr0 x := by
  constructor
  · rintro ⟨s, hs⟩ x rfl
    simp [to_crop_name, unwrap1] at hs
  · intro h
    obtain ⟨w, hw⟩ := unwrap1_always_ok v h
    exact to_crop_name_ok_of_unwrap label_encoder itc hw

/-- Claim C8: a string-typed input (Python `str` or numpy string
scalar) is returned unchanged, for every state of the encoder and the
fallback mapping — neither is consulted. -/
theorem to_crop_name_string_pass (label_encoder : Option LEnc)
    (itc : List (Int × String)) (s : String) :
    to_crop_name label_encoder itc (.str s) = .ok s ∧
    to_crop_name label_encoder itc (.npStr s) = .ok s :=
  ⟨rfl, rfl⟩

/-- Claim C9: on every non-container value (not a list and not a numpy
array), `to_crop_name` and `map_class_label` implement the same
resolution rule: `to_crop_name` succeeds and returns exactly
`map_class_label` of the value. -/
theorem scalar_resolution_agrees (label_encoder : Option LEnc)
    (itc : List (Int × String)) (v : PyVal) (h : isContainer v = false) :
    to_crop_name label_encoder itc v = .ok (map_class_label label_encoder itc v) := by
  cases v <;> first
    | rfl
    | simp [isContainer] at h

/-- Witness for C9 at the concrete scalar `np.int64(2)`. -/
theorem scalar_resolution_agrees_witness :
    to_crop_name none [] (.npInt 2) = .ok (map_class_label none [] (.npInt 2)) :=
  scalar_resolution_agrees none [] (.npInt 2) rfl

/-- Claim C10: a list or array whose length is not 1 is not unwrapped:
`to_crop_name` returns the stringification of the whole container (for
every encoder and fallback mapping, so no element is resolved). -/
theorem to_crop_name_keeps_container (label_encoder : Option LEnc)
    (itc : List (Int × String)) (xs : List PyVal) (h : xs.length ≠ 1) :
    to_crop_name label_encoder itc (.list xs) = .ok (pyStr (.list xs)) ∧
    to_crop_name label_encoder itc (.arr xs) = .ok (pyStr (.arr xs)) := by
  match xs with
  | [] => exact ⟨rfl, rfl⟩
  | [x] => exact absurd rfl h
  | x :: y :: l => exact ⟨rfl, rfl⟩

/-- Witness for C10 at the empty list and a two-element array. -/
theorem to_crop_name_keeps_container_witness :
    to_crop_name none [] (.list []) = .ok (pyStr (.list [])) ∧
    to_crop_name none [] (.arr [.npInt 1, .npInt 2]) = .ok (pyStr (.arr [.npInt 1, .npInt 2])) :=
  ⟨(to_crop_name_keeps_container none [] [] (by decide)).1,
   (to_crop_name_keeps_container none [] [.npInt 1, .npInt 2] (by decide)).2⟩

/-- Claim C4: for an integer input (Python `int` or numpy integer),
`to_crop_name` returns the encoder's answer when the encoder is present
and succeeds on that index; when the encoder is absent or fails, it
returns the alphabetical fallback mapping's entry for the index; and
when the index is outside the fallback mapping too, it returns the
stringified integer. -/
theorem to_crop_name_int_branch (label_encoder : Option LEnc) (C : List String) (n : Int) :
    (∀ enc s, label_encoder = some enc → enc n = some s →
        to_crop_name label_encoder (int_to_class C) (.int n) = .ok s ∧
        to_crop_name label_encoder (int_to_class C) (.npInt n) = .ok s) ∧
    ((label_encoder = none ∨ ∃ enc, label_encoder = some enc ∧ enc n = none) →
      (∀ c, pyDictGet (int_to_class C) n = some c →
          to_crop_name label_encoder (int_to_class C) (.int n) = .ok c ∧
          to_crop_name label_encoder (int_to_class C) (.npInt n) = .ok c) ∧
      (pyDictGet (int_to_class C) n = none →
          to_crop_name label_encoder (int_to_class C) (.int n) = .ok (toString n) ∧
          to_crop_name label_encoder (int_to_class C) (.npInt n) = .ok (toString n))) := by
  constructor
  · rintro enc s rfl hs
    constructor <;> simp [to_crop_name, unwrap1, resolveInt, hs]
  · rintro (rfl | ⟨enc, rfl, hn⟩)
    · exact ⟨fun c hc => by constructor <;> simp [to_crop_name, unwrap1, resolveInt, hc],
        fun hnone => by constructor <;> simp [to_crop_name, unwrap1, resolveInt, hnone]⟩
    · exact ⟨fun c hc => by constructor <;> simp [to_crop_name, unwrap1, resolveInt, hn, hc],
        fun hnone => by constructor <;> simp [to_crop_name, unwrap1, resolveInt, hn, hnone]⟩

/-- Witness for C4: with no encoder and classes `{"rice"}`, index 0
resolves through the fallback to `"rice"`, and the out-of-range index 5
resolves to `"5"`. -/
theorem to_crop_name_int_branch_witness :
    to_crop_name none (int_to_class ["rice"]) (.int 0) = .ok "rice" ∧
    to_crop_name none (int_to_class ["rice"]) (.int 5) = .ok "5" :=
  ⟨(((to_crop_name_int_branch none ["rice"] 0).2 (Or.inl rfl)).1 "rice" (by rfl)).1,
   (((to_crop_name_int_branch none ["rice"] 5).2 (Or.inl rfl)).2 (by rfl)).1⟩

/-- Claim C3: the fallback mapping built by enumerating the
alphabetically sorted class names agrees with `sorted(C)` at every
index `0 ≤ i < len(C)` (so it is total on those indices), and — the
class names being distinct, as keys of the `crop_info` dict — it is
injective. -/
theorem int_to_class_alphabetical (C : List String) :
    (∀ i : Nat, i < (pySorted C).length →
        pyDictGet (int_to_class C) (i : Int) = (pySorted C).get? i) ∧
    (∀ i : Nat, i < (pySorted C).length →
        (pyDictGet (int_to_class C) (i : Int)).isSome = true) ∧
    (C.Nodup → ∀ i j : Nat, ∀ c : String,
        pyDictGet (int_to_class C) (i : Int) = some c →
        pyDictGet (int_to_class C) (j : Int) = some c → i = j) := by
  have hidx : ∀ i : Nat, i < (pySorted C).length →
      pyDictGet (int_to_class C) (i : Int) = (pySorted C).get? i := by
    intro i hi
    have h := dictGet_enumFrom_of_lt (pySorted C) 0 i hi
    simpa [int_to_class] using h
  have hdom : ∀ t : Nat, ∀ c : String,
      pyDictGet (int_to_class C) (t : Int) = some c → t < (pySorted C).length := by
    intro t c ht
    by_contra hge
    rw [int_to_class, dictGet_enumFrom_none (pySorted C) 0 t
      (Or.inr (by omega))] at ht
    cases ht
  refine ⟨hidx, ?_, ?_⟩
  · intro i hi
    rw [hidx i hi, List.get?_eq_get hi]
    rfl
  · intro hnd i j c hi hj
    have hil := hdom i c hi
    have hjl := hdom j c hj
    have hnd' : (pySorted C).Nodup := (perm_insort pyStrLe C).symm.nodup hnd
    rw [hidx i hil] at hi
    rw [hidx j hjl] at hj
    exact List.get?_inj hil hnd' (hi.trans hj.symm)

/-- Witness for C3: with classes `{"rice", "maize"}` the fallback maps
index 0 to `sorted(C)[0]` (which is `"maize"`). -/
theorem int_to_class_alphabetical_witness :
    pyDictGet (int_to_class ["rice", "maize"]) (0 : Int) =
      (pySorted ["rice", "maize"]).get? 0 :=
  (int_to_class_alphabetical ["rice", "maize"]).1 0 (by decide)

/-- Claim C2, counterexample: with equal probabilities `[1/2, 1/2]` over
the internal class order `["apple", "banana"]` and `k = 2`, the ranked
result lists `"banana"` — the class appearing LATER in the internal
ordering — first.  On a 2-entry row `np.argsort`'s introsort is plain
insertion sort, so the modelled sort coincides with numpy exactly here:
argsort gives `[0, 1]` and the `[::-1]` reversal emits index 1 first.
The claim's first-seen-wins tie-breaking (which would put `"apple"`
first) is therefore false; the two entries differ, so the order is
observable. -/
theorem top_k_tie_order_reversed :
    top_k_predictions tieModel none [] [] [0] 2 =
      .ok (some [⟨"banana", mkRat 1 2, noInfoMsg⟩, ⟨"apple", mkRat 1 2, noInfoMsg⟩]) ∧
    (⟨"banana", mkRat 1 2, noInfoMsg⟩ : RankEntry) ≠ ⟨"apple", mkRat 1 2, noInfoMsg⟩ :=
  ⟨by rfl, by decide⟩

/-- Claim C2, amended: when the classifier exposes `predict_proba` and
`classes_` and the probability row has one entry per class,
`top_k_predictions` succeeds.  For EVERY index order satisfying the
`np.argsort` contract (`IsArgsortRow`: a permutation of `0..n-1`
ascending by value — the tie order among equal probabilities is not
part of the contract, the default quicksort being unstable for rows of
more than 16 entries), the ranked list built from its reversed `k`-head
has length `min k n` and is sorted by probability descending.  The
executable model's `argsort` satisfies that contract, and the program's
result is exactly the entries it selects.  The original claim's
first-seen-wins tie order is refuted by `top_k_tie_order_reversed`; no
particular tie order is asserted here. -/
theorem top_k_ranked (m : SkModel) (label_encoder : Option LEnc)
    (itc : List (Int × String)) (crop_info : List (String × String))
    (features : List ℚ) (k : Nat) (fp : List ℚ → List ℚ) (classes : List PyVal)
    (ps : List ℚ)
    (hpp : m.predict_proba = some fp) (hcls : m.classes_ = some classes)
    (hps : fp features = ps)
    (hlen : classes.length = ps.length) (hk : 1 ≤ k) :
    (∀ idxs : List Nat, IsArgsortRow ps idxs →
      ((idxs.reverse.take k).map
          (entryFor label_encoder itc crop_info classes ps)).length
        = min k ps.length ∧
      ((idxs.reverse.take k).map
          (entryFor label_encoder itc crop_info classes ps)).Pairwise
        (fun e1 e2 => e2.probability ≤ e1.probability)) ∧
    IsArgsortRow ps (argsort ps) ∧
    top_k_predictions m label_encoder itc crop_info features k =
      .ok (some ((topIndices ps k).map
        (entryFor label_encoder itc crop_info classes ps))) := by
  have hmapM : (topIndices ps k).mapM
      (mkEntry label_encoder itc crop_info classes ps) =
      .ok ((topIndices ps k).map (entryFor label_encoder itc crop_info classes ps)) := by
    refine mapM_ok_of_forall fun idx hidx => ?_
    have hbound := topIndices_mem ps k hidx
    exact mkEntry_eq_entryFor label_encoder itc crop_info classes ps idx
      (by omega) hbound
  refine ⟨?_, argsort_isArgsortRow ps, ?_⟩
  · rintro idxs ⟨hperm, hsort⟩
    have hlen2 : idxs.length = ps.length := by simpa using hperm.length_eq
    constructor
    · simp [List.length_map, List.length_take, List.length_reverse, hlen2]
    · refine List.Pairwise.map _ (fun a b h => h) ?_
      refine List.Pairwise.sublist (List.take_sublist _ _) ?_
      exact List.pairwise_reverse.mpr hsort
  · simp only [top_k_predictions, hpp, hcls, hps, hmapM]

/-- Witness for C2 at the spec's own example: probabilities
`[0.1, 0.7, 0.2]` over classes `["rice", "maize", "jute"]`, `k = 2`. -/
theorem top_k_ranked_witness :
    top_k_predictions exampleModel none [] [] [0] 2 =
      .ok (some ((topIndices [mkRat 1 10, mkRat 7 10, mkRat 2 10] 2).map
        (entryFor none [] [] [.npStr "rice", .npStr "maize", .npStr "jute"]
          [mkRat 1 10, mkRat 7 10, mkRat 2 10]))) :=
  (top_k_ranked exampleModel none [] [] [0] 2 _ _ _ rfl rfl rfl (by decide) (by decide)).2.2

/-- Claim C5: `top_k_predictions` yields the null/unavailable result
exactly when the classifier lacks the `predict_proba` capability or the
`classes_` attribute (a capability check, not an exception), and in
that case the `/predict` handler's successful response carries no
`top_3` field. -/
theorem top_k_unavailable_iff (m : SkModel) (label_encoder : Option LEnc)
    (itc : List (Int × String)) (crop_info : List (String × String))
    (features : List ℚ) (k : Nat) :
    (top_k_predictions m label_encoder itc crop_info features k = .ok none ↔
      m.predict_proba = none ∨ m.classes_ = none) ∧
    ((m.predict_proba = none ∨ m.classes_ = none) →
      ∀ body p i t, predict m label_encoder itc crop_info body = .ok p i t →
        t = none) := by
  refine ⟨top_k_none_iff m label_encoder itc crop_info features k, ?_⟩
  intro hcap body p i t h
  cases body with
  | none => exact Resp.noConfusion h
  | some b =>
    cases b with
    | num q => exact Resp.noConfusion h
    | jstr s => exact Resp.noConfusion h
    | jbool bb => exact Resp.noConfusion h
    | null => exact Resp.noConfusion h
    | jarr xs => exact Resp.noConfusion h
    | jobj data =>
      rcases hfm : firstMissing data with _ | key
      · rcases hgf : getFeatures data with _ | fs
        · simp [predict, hfm, hgf] at h
        · rcases htc : to_crop_name label_encoder itc (m.predict fs) with e | label
          · simp [predict, hfm, hgf, htc] at h
          · have htk := (top_k_none_iff m label_encoder itc crop_info fs 3).mpr hcap
            simp only [predict, hfm, hgf, htc, htk, attachTop3] at h
            rw [Resp.ok.injEq] at h
            exact h.2.2.symm
      · simp [predict, hfm] at h

/-- Witness for C5: a classifier without `predict_proba` makes
`top_k_predictions` return the null result. -/
theorem top_k_unavailable_iff_witness :
    top_k_predictions noProbaModel none [] [] [0] 3 = .ok none :=
  (top_k_unavailable_iff noProbaModel none [] [] [0] 3).1.mpr (Or.inl rfl)

/-- Claim C6: the descriptive info is looked up by the lowercased label
— labels equal up to case hit the same catalog entry — the sentinel is
returned when the lowercased label is absent, every entry emitted by
`top_k_predictions` carries the info of its own (lowercased) label, and
the `/predict` success response's info field is the lookup of its
prediction field. -/
theorem info_lookup_lowercased (crop_info : List (String × String)) :
    (∀ l1 l2 : String, pyLower l1 = pyLower l2 →
        infoFor crop_info l1 = infoFor crop_info l2) ∧
    (∀ l : String, pyDictGet crop_info (pyLower l) = none →
        infoFor crop_info l = noInfoMsg) ∧
    (∀ m label_encoder itc features k entries,
        top_k_predictions m label_encoder itc crop_info features k =
          .ok (some entries) →
        ∀ e ∈ entries, e.info = infoFor crop_info e.label) ∧
    (∀ m label_encoder itc body p i t,
        predict m label_encoder itc crop_info body = .ok p i t →
        i = infoFor crop_info p) := by
  refine ⟨?_, ?_, ?_, ?_⟩
  · intro l1 l2 h
    simp [infoFor, h]
  · intro l h
    simp [infoFor, h]
  · intro m label_encoder itc features k entries htk e he
    obtain ⟨pred, pp, cls⟩ := m
    cases pp with
    | none => simp [top_k_predictions] at htk
    | some fp =>
      cases cls with
      | none => simp [top_k_predictions] at htk
      | some classes =>
        simp only [top_k_predictions] at htk
        cases hm : (topIndices (fp features) k).mapM
            (mkEntry label_encoder itc crop_info classes (fp features)) with
        | error e0 => rw [hm] at htk; cases htk
        | ok results =>
          rw [hm] at htk
          have hre : results = entries := by
            have := htk
            injection this with h1
            injection h1
          subst hre
          obtain ⟨a, _, hfa⟩ := exists_of_mapM_ok hm e he
          exact mkEntry_info hfa
  · intro m label_encoder itc body p i t h
    cases body with
    | none => exact Resp.noConfusion h
    | some b =>
      cases b with
      | num q => exact Resp.noConfusion h
      | jstr s => exact Resp.noConfusion h
      | jbool bb => exact Resp.noConfusion h
      | null => exact Resp.noConfusion h
      | jarr xs => exact Resp.noConfusion h
      | jobj data =>
        rcases hfm : firstMissing data with _ | key
        · rcases hgf : getFeatures data with _ | fs
          · simp [predict, hfm, hgf] at h
          · rcases htc : to_crop_name label_encoder itc (m.predict fs) with e | label
            · simp [predict, hfm, hgf, htc] at h
            · rcases htk : top_k_predictions m label_encoder itc crop_info fs 3
                  with e | top3
              · simp [predict, hfm, hgf, htc, htk] at h
              · simp only [predict, hfm, hgf, htc, htk] at h
                rw [Resp.ok.injEq] at h
                rw [← h.1, ← h.2.1]
        · simp [predict, hfm] at h

/-- Witness for C6: the labels `"Rice"` and `"RICE"` hit the same
catalog entry. -/
theorem info_lookup_lowercased_witness :
    infoFor [("rice", "ricey")] "Rice" = infoFor [("rice", "ricey")] "RICE" :=
  (info_lookup_lowercased [("rice", "ricey")]).1 "Rice" "RICE" (by rfl)

/-- Claim C7: when a required field is absent from a JSON-object body,
the `/predict` handler rejects with HTTP 400 naming the first missing
field of the fixed required-field order, and the result is the same for
every classifier — the model is never consulted. -/
theorem predict_missing_field (m m2 : SkModel) (label_encoder : Option LEnc)
    (itc : List (Int × String)) (crop_info : List (String × String))
    (data : List (String × Json)) :
    ((∃ r ∈ requiredFields, jsonGet data r = none) →
        (firstMissing data).isSome = true) ∧
    (∀ key, firstMissing data = some key →
        predict m label_encoder itc crop_info (some (.jobj data)) =
          .badRequest ("Missing field: " ++ key) ∧
        predict m label_encoder itc crop_info (some (.jobj data)) =
          predict m2 label_encoder itc crop_info (some (.jobj data))) := by
  constructor
  · rintro ⟨r, hr, hnone⟩
    cases hfm : firstMissing data with
    | some key => rfl
    | none =>
      have hall := List.find?_eq_none.mp hfm r hr
      exact absurd (by simp [hnone]) hall
  · intro key hkey
    constructor
    · simp [predict, hkey]
    · simp [predict, hkey]

/-- Witness for C7: the empty body is missing `"nitrogen"`, the first
required field, and is rejected identically under two different
classifier fixtures. -/
theorem predict_missing_field_witness :
    predict noProbaModel none [] [] (some (.jobj [])) =
      .badRequest ("Missing field: " ++ "nitrogen") :=
  ((predict_missing_field noProbaModel tieModel none [] [] []).2 "nitrogen" (by rfl)).1
